import Mathlib

/-!
Verification development for the MNDP (MikroTik Neighbor Discovery Protocol)
packet codec and neighbor mapper.

Bytes are modelled as natural numbers (each `< 256` at the wire boundary);
16-bit and 32-bit machine integers are natural numbers reduced modulo
`2 ^ 16` / `2 ^ 32` exactly where the code truncates.  Fallible operations
return `Except`/`Option`; a Rust panic is modelled as `Option.none`.
-/

namespace Mndp

/-- MNDP field type (the closed enumeration of known type codes). -/
inductive MndpType where
  | MacAddress
  | Identity
  | Version
  | Platform
  | Uptime
  | SoftwareId
  | Board
  | Unpack
  | Ipv6Address
  | InterfaceName
  | Ipv4Address
deriving DecidableEq, Repr

/-- Numeric wire code of each `MndpType` (`MndpType as u16`). -/
def MndpType.code : MndpType → Nat
  | .MacAddress => 1
  | .Identity => 5
  | .Version => 7
  | .Platform => 8
  | .Uptime => 10
  | .SoftwareId => 11
  | .Board => 12
  | .Unpack => 14
  | .Ipv6Address => 15
  | .InterfaceName => 16
  | .Ipv4Address => 17

/-- Model of `TryFrom<u16> for MndpType`: recover a known type from its code. -/
def MndpType.tryFrom (n : Nat) : Option MndpType :=
  if n = 1 then some .MacAddress
  else if n = 5 then some .Identity
  else if n = 7 then some .Version
  else if n = 8 then some .Platform
  else if n = 10 then some .Uptime
  else if n = 11 then some .SoftwareId
  else if n = 12 then some .Board
  else if n = 14 then some .Unpack
  else if n = 15 then some .Ipv6Address
  else if n = 16 then some .InterfaceName
  else if n = 17 then some .Ipv4Address
  else none

/-- Individual TLV field within an MNDP packet (`typ` is a u16, `value` raw bytes). -/
structure TypeValue where
  typ : Nat
  value : List Nat
deriving DecidableEq, Repr

/-- MNDP packet: 2-byte header, 2-byte sequence number, ordered TLV fields. -/
structure Packet where
  header : Nat
  sequence : Nat
  fields : List TypeValue
deriving DecidableEq, Repr

/-- Model of `BufMut::put_u16`: write a 16-bit big-endian value (truncating to 16 bits). -/
def put_u16 (n : Nat) : List Nat :=
  [n % 65536 / 256, n % 256]

/-- The TLV-eating loop of `Packet::from_bytes`: while at least 4 bytes remain,
read a big-endian type and length; if at least `len` bytes remain take them as
the value, otherwise push nothing and keep looping over what is left. -/
def parseTLVs : List Nat → List TypeValue
  | t1 :: t0 :: l1 :: l0 :: rest =>
    if l1 * 256 + l0 ≤ rest.length then
      ⟨t1 * 256 + t0, rest.take (l1 * 256 + l0)⟩ :: parseTLVs (rest.drop (l1 * 256 + l0))
    else
      parseTLVs rest
  | _ => []
termination_by l => l.length
decreasing_by
  · simp only [List.length_drop, List.length_cons]; omega
  · simp only [List.length_cons]; omega

/-- Model of `Packet::from_bytes`: fail on fewer than 4 bytes, otherwise read the
big-endian header and sequence number and then the TLV records. -/
def Packet.from_bytes (b : List Nat) : Except Unit Packet :=
  match b with
  | b0 :: b1 :: b2 :: b3 :: rest =>
    .ok { header := b0 * 256 + b1, sequence := b2 * 256 + b3, fields := parseTLVs rest }
  | _ => .error ()

/-- Model of `Packet::to_bytes`: header and sequence big-endian, then each field as
type, length clamped to 65535, and the value truncated to that length. -/
def Packet.to_bytes (p : Packet) : List Nat :=
  p.fields.foldl
    (fun buf tv =>
      let len := if tv.value.length ≥ 65535 then 65535 else tv.value.length
      buf ++ put_u16 tv.typ ++ put_u16 len ++ tv.value.take len)
    (put_u16 p.header ++ put_u16 p.sequence)

instance {ε α : Type} [DecidableEq ε] [DecidableEq α] : DecidableEq (Except ε α) :=
  fun a b =>
    match a, b with
    | .ok x, .ok y =>
      if h : x = y then isTrue (by rw [h]) else isFalse (by intro hc; cases hc; exact h rfl)
    | .error x, .error y =>
      if h : x = y then isTrue (by rw [h]) else isFalse (by intro hc; cases hc; exact h rfl)
    | .ok _, .error _ => isFalse (by intro hc; cases hc)
    | .error _, .ok _ => isFalse (by intro hc; cases hc)

/-- The byte stream after the 4-byte prefix is an exact concatenation of
complete TLV records (each declared length consumed exactly). -/
def wfTLVs : List Nat → Bool
  | [] => true
  | _ :: _ :: l1 :: l0 :: rest =>
    decide (l1 * 256 + l0 ≤ rest.length) && wfTLVs (rest.drop (l1 * 256 + l0))
  | _ => false
termination_by l => l.length
decreasing_by simp only [List.length_drop, List.length_cons]; omega

/-- A buffer is well formed when it has the 4-byte prefix and its TLV region
is an exact concatenation of complete records. -/
def wellFormed (b : List Nat) : Bool :=
  decide (4 ≤ b.length) && wfTLVs (b.drop 4)

/-- The bytes `Packet::to_bytes` emits for one field. -/
def encTV (tv : TypeValue) : List Nat :=
  put_u16 tv.typ ++ put_u16 (min tv.value.length 65535) ++
    tv.value.take (min tv.value.length 65535)

/-- Is `b` a UTF-8 continuation byte (`0x80 .. 0xbf`)? -/
def isCont (b : Nat) : Bool := 128 ≤ b && b ≤ 191

/-- Admissible second byte after a three-byte lead (excludes overlong encodings
and surrogate code points). -/
def cont3Lead (b0 b1 : Nat) : Bool :=
  if b0 = 224 then 160 ≤ b1 && b1 ≤ 191
  else if b0 = 237 then 128 ≤ b1 && b1 ≤ 159
  else isCont b1

/-- Admissible second byte after a four-byte lead (excludes overlong encodings
and code points above U+10FFFF). -/
def cont4Lead (b0 b1 : Nat) : Bool :=
  if b0 = 240 then 144 ≤ b1 && b1 ≤ 191
  else if b0 = 244 then 128 ≤ b1 && b1 ≤ 143
  else isCont b1

/-- Length (1–4) of the valid UTF-8 scalar encoding at the head of the list,
or `none` if the head does not start a valid encoding. -/
def utf8ChunkLen : List Nat → Option Nat
  | [] => none
  | b0 :: rest =>
    if b0 ≤ 127 then some 1
    else if 194 ≤ b0 && b0 ≤ 223 then
      match rest with
      | b1 :: _ => if isCont b1 then some 2 else none
      | [] => none
    else if 224 ≤ b0 && b0 ≤ 239 then
      match rest with
      | b1 :: b2 :: _ => if cont3Lead b0 b1 && isCont b2 then some 3 else none
      | _ => none
    else if 240 ≤ b0 && b0 ≤ 244 then
      match rest with
      | b1 :: b2 :: b3 :: _ =>
        if cont4Lead b0 b1 && isCont b2 && isCont b3 then some 4 else none
      | _ => none
    else none

/-- Number of bytes consumed by one invalid sequence: the longest prefix of a
valid encoding, and at least one byte (the maximal-subpart rule of lossy
UTF-8 decoding). -/
def utf8InvalidLen : List Nat → Nat
  | [] => 1
  | b0 :: rest =>
    if 224 ≤ b0 && b0 ≤ 239 then
      match rest with
      | [] => 1
      | b1 :: rest2 =>
        if cont3Lead b0 b1 then
          match rest2 with
          | [] => 2
          | b2 :: _ => if isCont b2 then 3 else 2
        else 1
    else if 240 ≤ b0 && b0 ≤ 244 then
      match rest with
      | [] => 1
      | b1 :: rest2 =>
        if cont4Lead b0 b1 then
          match rest2 with
          | [] => 2
          | b2 :: rest3 =>
            if isCont b2 then
              match rest3 with
              | [] => 3
              | b3 :: _ => if isCont b3 then 4 else 3
            else 2
        else 1
    else 1

/-- Model of `String::from_utf8_lossy(bytes).to_string()`, modelled at the byte level:
valid UTF-8 chunks pass through verbatim; each invalid maximal subpart is
replaced by the replacement character U+FFFD (bytes `ef bf bd`). -/
def fromUtf8Lossy : List Nat → List Nat
  | [] => []
  | b0 :: rest =>
    match utf8ChunkLen (b0 :: rest) with
    | some k => (b0 :: rest).take k ++ fromUtf8Lossy (rest.drop (k - 1))
    | none => 239 :: 191 :: 189 :: fromUtf8Lossy (rest.drop (utf8InvalidLen (b0 :: rest) - 1))
termination_by l => l.length
decreasing_by
  · simp only [List.length_drop, List.length_cons]; omega
  · simp only [List.length_drop, List.length_cons]; omega

/-- A byte list is valid UTF-8 (the byte content of some Rust `String`). -/
def validUtf8 : List Nat → Bool
  | [] => true
  | b0 :: rest =>
    match utf8ChunkLen (b0 :: rest) with
    | some k => validUtf8 (rest.drop (k - 1))
    | none => false
termination_by l => l.length
decreasing_by
  simp only [List.length_drop, List.length_cons]; omega

/-- Model of `std::time::Duration`: whole seconds plus a sub-second nanosecond part. -/
structure Duration where
  secs : Nat
  nanos : Nat
deriving DecidableEq, Repr

/-- Model of `Duration::from_secs`. -/
def Duration.from_secs (s : Nat) : Duration := ⟨s, 0⟩

/-- MNDP `unpack` field describing packing (compression) type. -/
inductive Unpack where
  | No
  | Simple
deriving DecidableEq, Repr

/-- High-level representation of an MNDP neighbor.  Text attributes hold the
UTF-8 bytes of the Rust `String`; `Ipv4Addr`, `Ipv6Addr` and `MacAddr6` are
represented by their 4, 16 and 6 octets. -/
structure Neighbor where
  board : Option (List Nat) := none
  identity : Option (List Nat) := none
  interface_name : Option (List Nat) := none
  ipv4_address : Option (List Nat) := none
  ipv6_address : Option (List Nat) := none
  mac_address : Option (List Nat) := none
  platform : Option (List Nat) := none
  software_id : Option (List Nat) := none
  unpack : Option Unpack := none
  uptime : Option Duration := none
  version : Option (List Nat) := none
deriving DecidableEq, Repr

/-- Model of `Buf::get_u32_le` applied to the first four bytes. -/
def get_u32_le (b0 b1 b2 b3 : Nat) : Nat :=
  b0 + b1 * 256 + b2 * 65536 + b3 * 16777216

/-- Model of `u32::to_le_bytes`. -/
def u32_to_le_bytes (n : Nat) : List Nat :=
  [n % 256, n / 256 % 256, n / 65536 % 256, n / 16777216 % 256]

/-- One iteration of the `Packet::to_neighbor` loop: dispatch one TLV field
onto the builder state.  `none` models a panic (a failed `unwrap` on a
wrong-width address value, an out-of-bounds index on an empty unpack value, or
`get_u32_le` on fewer than four bytes); unknown type codes leave the state
unchanged. -/
def decodeField (n : Neighbor) (tv : TypeValue) : Option Neighbor :=
  match MndpType.tryFrom tv.typ with
  | none => some n
  | some t =>
    match t with
    | .Board => some { n with board := some (fromUtf8Lossy tv.value) }
    | .Identity => some { n with identity := some (fromUtf8Lossy tv.value) }
    | .InterfaceName => some { n with interface_name := some (fromUtf8Lossy tv.value) }
    | .Ipv4Address =>
      if tv.value.length = 4 then some { n with ipv4_address := some tv.value } else none
    | .Ipv6Address =>
      if tv.value.length = 16 then some { n with ipv6_address := some tv.value } else none
    | .MacAddress =>
      if tv.value.length = 6 then some { n with mac_address := some tv.value } else none
    | .Platform => some { n with platform := some (fromUtf8Lossy tv.value) }
    | .SoftwareId => some { n with software_id := some (fromUtf8Lossy tv.value) }
    | .Unpack =>
      match tv.value with
      | [] => none
      | b :: _ =>
        if b = 0 then some { n with unpack := some .No }
        else if b = 1 then some { n with unpack := some .Simple }
        else some n
    | .Uptime =>
      match tv.value with
      | b0 :: b1 :: b2 :: b3 :: _ =>
        some { n with uptime := some (Duration.from_secs (get_u32_le b0 b1 b2 b3)) }
      | _ => none
    | .Version => some { n with version := some (fromUtf8Lossy tv.value) }

/-- Fold of `decodeField` over the field list, in order; a panic anywhere
aborts the whole conversion. -/
def to_neighborAux (n : Neighbor) : List TypeValue → Option Neighbor
  | [] => some n
  | tv :: rest =>
    match decodeField n tv with
    | some n2 => to_neighborAux n2 rest
    | none => none

/-- Model of `Packet::to_neighbor`; `none` models a panic on a malformed field. -/
def Packet.to_neighbor (p : Packet) : Option Neighbor :=
  to_neighborAux {} p.fields

/-- Field pushed by `Packet::from_neighbor` for an optional byte-valued
attribute (text bytes, or address octets). -/
def emitBytes (code : Nat) : Option (List Nat) → List TypeValue
  | none => []
  | some v => [⟨code, v⟩]

/-- Field pushed by `Packet::from_neighbor` for the unpack attribute. -/
def emitUnpack : Option Unpack → List TypeValue
  | none => []
  | some .No => [⟨14, [0]⟩]
  | some .Simple => [⟨14, [1]⟩]

/-- Field pushed by `Packet::from_neighbor` for the uptime attribute: the
second count as 32-bit little-endian, silently omitted when it does not fit
into a `u32`. -/
def emitUptime : Option Duration → List TypeValue
  | none => []
  | some d => if d.secs < 4294967296 then [⟨10, u32_to_le_bytes d.secs⟩] else []

/-- Model of `Packet::from_neighbor`: a new packet (header 0, sequence 0) with one
field pushed per present attribute, in source order. -/
def Packet.from_neighbor (n : Neighbor) : Packet :=
  { header := 0, sequence := 0,
    fields :=
      emitBytes 12 n.board ++ emitBytes 5 n.identity ++ emitBytes 16 n.interface_name ++
      emitBytes 17 n.ipv4_address ++ emitBytes 15 n.ipv6_address ++
      emitBytes 1 n.mac_address ++ emitBytes 8 n.platform ++
      emitBytes 11 n.software_id ++ emitUnpack n.unpack ++ emitUptime n.uptime ++
      emitBytes 7 n.version }

/-- The 137-byte capture from the repository's byte-decoding test
(hex `3cc60000...ac129d01`). -/
def capture : List Nat :=
  [60, 198, 0, 0, 0, 1, 0, 6, 196, 173, 52, 191, 145, 17, 0, 5, 0, 11, 101, 111, 98,
   45, 114, 111, 117, 116, 101, 114, 49, 0, 7, 0, 15, 54, 46, 52, 56, 46, 49, 32, 40,
   115, 116, 97, 98, 108, 101, 41, 0, 8, 0, 8, 77, 105, 107, 114, 111, 84, 105, 107,
   0, 10, 0, 4, 65, 117, 46, 0, 0, 11, 0, 9, 50, 65, 80, 55, 45, 90, 86, 67, 53, 0,
   12, 0, 8, 82, 66, 55, 54, 48, 105, 71, 83, 0, 14, 0, 1, 1, 0, 15, 0, 16, 38, 0,
   108, 80, 6, 127, 119, 0, 0, 0, 0, 0, 0, 0, 0, 1, 0, 16, 0, 7, 118, 108, 97, 110,
   49, 53, 55, 0, 17, 0, 4, 172, 18, 157, 1]

/-- The packet `Packet::from_bytes` produces from `capture`:
header `0x3cc6`, sequence 0, and the eleven TLV records in wire order. -/
def capturePacket : Packet :=
  ⟨15558, 0,
   [⟨1, [196, 173, 52, 191, 145, 17]⟩,
    ⟨5, [101, 111, 98, 45, 114, 111, 117, 116, 101, 114, 49]⟩,
    ⟨7, [54, 46, 52, 56, 46, 49, 32, 40, 115, 116, 97, 98, 108, 101, 41]⟩,
    ⟨8, [77, 105, 107, 114, 111, 84, 105, 107]⟩,
    ⟨10, [65, 117, 46, 0]⟩,
    ⟨11, [50, 65, 80, 55, 45, 90, 86, 67, 53]⟩,
    ⟨12, [82, 66, 55, 54, 48, 105, 71, 83]⟩,
    ⟨14, [1]⟩,
    ⟨15, [38, 0, 108, 80, 6, 127, 119, 0, 0, 0, 0, 0, 0, 0, 0, 1]⟩,
    ⟨16, [118, 108, 97, 110, 49, 53, 55]⟩,
    ⟨17, [172, 18, 157, 1]⟩]⟩

/-- The neighbor `Packet::to_neighbor` produces from `capturePacket`:
MAC c4:ad:34:bf:91:11, identity "eob-router1", version "6.48.1 (stable)",
platform "MikroTik", uptime 3044673 seconds (raw little-endian bytes
`41 75 2e 00`), software ID "2AP7-ZVC5", board "RB760iGS", simple packing,
IPv6 2600:6c50:67f:7700::1, interface name "vlan157", IPv4 172.18.157.1. -/
def captureNeighbor : Neighbor :=
  { board := some [82, 66, 55, 54, 48, 105, 71, 83],
    identity := some [101, 111, 98, 45, 114, 111, 117, 116, 101, 114, 49],
    interface_name := some [118, 108, 97, 110, 49, 53, 55],
    ipv4_address := some [172, 18, 157, 1],
    ipv6_address := some [38, 0, 108, 80, 6, 127, 119, 0, 0, 0, 0, 0, 0, 0, 0, 1],
    mac_address := some [196, 173, 52, 191, 145, 17],
    platform := some [77, 105, 107, 114, 111, 84, 105, 107],
    software_id := some [50, 65, 80, 55, 45, 90, 86, 67, 53],
    unpack := some .Simple,
    uptime := some ⟨3044673, 0⟩,
    version := some [54, 46, 52, 56, 46, 49, 32, 40, 115, 116, 97, 98, 108, 101, 41] }

/-! Support lemmas -/

theorem utf8ChunkLen_pos {l : List Nat} {k : Nat} (h : utf8ChunkLen l = some k) : 1 ≤ k := by
  rcases l with _ | ⟨b0, rest⟩
  · simp [utf8ChunkLen] at h
  · simp only [utf8ChunkLen] at h
    repeat' split at h
    all_goals (try cases h) <;> omega

/-- On a valid UTF-8 byte list, lossy decoding is the identity. -/
theorem fromUtf8Lossy_of_valid {l : List Nat} (h : validUtf8 l = true) :
    fromUtf8Lossy l = l := by
  induction l using validUtf8.induct with
  | case1 => simp [fromUtf8Lossy]
  | case2 b0 rest k hk ih =>
    rw [validUtf8, hk] at h
    simp only at h
    rw [fromUtf8Lossy, hk]
    simp only
    obtain ⟨m, rfl⟩ : ∃ m, k = m + 1 := ⟨k - 1, by have := utf8ChunkLen_pos hk; omega⟩
    simp only [Nat.add_sub_cancel] at h ih ⊢
    rw [ih h, List.take_succ_cons, List.cons_append, List.take_append_drop]
  | case3 b0 rest hk =>
    rw [validUtf8, hk] at h
    cases h

theorem to_neighborAux_append (n : Neighbor) (l1 l2 : List TypeValue) :
    to_neighborAux n (l1 ++ l2) =
      (to_neighborAux n l1).bind (fun m => to_neighborAux m l2) := by
  induction l1 generalizing n with
  | nil => simp [to_neighborAux]
  | cons tv rest ih =>
    simp only [List.cons_append, to_neighborAux]
    cases decodeField n tv with
    | none => simp
    | some n2 => simp [ih]

theorem get_u32_le_to_le_bytes (n : Nat) (h : n < 4294967296) :
    get_u32_le (n % 256) (n / 256 % 256) (n / 65536 % 256) (n / 16777216 % 256) = n := by
  simp only [get_u32_le]
  omega

theorem aux_emit_board (s : Neighbor) (o : Option (List Nat))
    (h : ∀ v, o = some v → validUtf8 v = true) :
    to_neighborAux s (emitBytes 12 o) = some { s with board := o.or s.board } := by
  cases o with
  | none => simp [emitBytes, to_neighborAux, Option.or]
  | some v =>
    simp [emitBytes, to_neighborAux, decodeField, MndpType.tryFrom,
      fromUtf8Lossy_of_valid (h v rfl), Option.or]

theorem aux_emit_identity (s : Neighbor) (o : Option (List Nat))
    (h : ∀ v, o = some v → validUtf8 v = true) :
    to_neighborAux s (emitBytes 5 o) = some { s with identity := o.or s.identity } := by
  cases o with
  | none => simp [emitBytes, to_neighborAux, Option.or]
  | some v =>
    simp [emitBytes, to_neighborAux, decodeField, MndpType.tryFrom,
      fromUtf8Lossy_of_valid (h v rfl), Option.or]

theorem aux_emit_interface_name (s : Neighbor) (o : Option (List Nat))
    (h : ∀ v, o = some v → validUtf8 v = true) :
    to_neighborAux s (emitBytes 16 o) =
      some { s with interface_name := o.or s.interface_name } := by
  cases o with
  | none => simp [emitBytes, to_neighborAux, Option.or]
  | some v =>
    simp [emitBytes, to_neighborAux, decodeField, MndpType.tryFrom,
      fromUtf8Lossy_of_valid (h v rfl), Option.or]

theorem aux_emit_ipv4 (s : Neighbor) (o : Option (List Nat))
    (h : ∀ v, o = some v → v.length = 4) :
    to_neighborAux s (emitBytes 17 o) =
      some { s with ipv4_address := o.or s.ipv4_address } := by
  cases o with
  | none => simp [emitBytes, to_neighborAux, Option.or]
  | some v =>
    simp [emitBytes, to_neighborAux, decodeField, MndpType.tryFrom, h v rfl,
      Option.or]

theorem aux_emit_ipv6 (s : Neighbor) (o : Option (List Nat))
    (h : ∀ v, o = some v → v.length = 16) :
    to_neighborAux s (emitBytes 15 o) =
      some { s with ipv6_address := o.or s.ipv6_address } := by
  cases o with
  | none => simp [emitBytes, to_neighborAux, Option.or]
  | some v =>
    simp [emitBytes, to_neighborAux, decodeField, MndpType.tryFrom, h v rfl,
      Option.or]

theorem aux_emit_mac (s : Neighbor) (o : Option (List Nat))
    (h : ∀ v, o = some v → v.length = 6) :
    to_neighborAux s (emitBytes 1 o) =
      some { s with mac_address := o.or s.mac_address } := by
  cases o with
  | none => simp [emitBytes, to_neighborAux, Option.or]
  | some v =>
    simp [emitBytes, to_neighborAux, decodeField, MndpType.tryFrom, h v rfl,
      Option.or]

theorem aux_emit_platform (s : Neighbor) (o : Option (List Nat))
    (h : ∀ v, o = some v → validUtf8 v = true) :
    to_neighborAux s (emitBytes 8 o) = some { s with platform := o.or s.platform } := by
  cases o with
  | none => simp [emitBytes, to_neighborAux, Option.or]
  | some v =>
    simp [emitBytes, to_neighborAux, decodeField, MndpType.tryFrom,
      fromUtf8Lossy_of_valid (h v rfl), Option.or]

theorem aux_emit_software_id (s : Neighbor) (o : Option (List Nat))
    (h : ∀ v, o = some v → validUtf8 v = true) :
    to_neighborAux s (emitBytes 11 o) =
      some { s with software_id := o.or s.software_id } := by
  cases o with
  | none => simp [emitBytes, to_neighborAux, Option.or]
  | some v =>
    simp [emitBytes, to_neighborAux, decodeField, MndpType.tryFrom,
      fromUtf8Lossy_of_valid (h v rfl), Option.or]

theorem aux_emit_unpack (s : Neighbor) (o : Option Unpack) :
    to_neighborAux s (emitUnpack o) = some { s with unpack := o.or s.unpack } := by
  cases o with
  | none => simp [emitUnpack, to_neighborAux, Option.or]
  | some u =>
    cases u <;>
      simp [emitUnpack, to_neighborAux, decodeField, MndpType.tryFrom, Option.or]

theorem aux_emit_uptime (s : Neighbor) (o : Option Duration)
    (h : ∀ d, o = some d → d.secs < 4294967296 ∧ d.nanos = 0) :
    to_neighborAux s (emitUptime o) = some { s with uptime := o.or s.uptime } := by
  cases o with
  | none => simp [emitUptime, to_neighborAux, Option.or]
  | some d =>
    obtain ⟨h1, h2⟩ := h d rfl
    have hd : Duration.from_secs d.secs = d := by
      cases d with
      | mk s2 n2 => simp only at h2; simp [Duration.from_secs, h2]
    simp [emitUptime, if_pos h1, to_neighborAux, decodeField, MndpType.tryFrom,
      u32_to_le_bytes, get_u32_le_to_le_bytes d.secs h1, hd, Option.or]

theorem aux_emit_version (s : Neighbor) (o : Option (List Nat))
    (h : ∀ v, o = some v → validUtf8 v = true) :
    to_neighborAux s (emitBytes 7 o) = some { s with version := o.or s.version } := by
  cases o with
  | none => simp [emitBytes, to_neighborAux, Option.or]
  | some v =>
    simp [emitBytes, to_neighborAux, decodeField, MndpType.tryFrom,
      fromUtf8Lossy_of_valid (h v rfl), Option.or]

/-- Claim C6 (amended): for every Neighbor record whose set attributes are all
representable on the wire (valid-UTF-8 text attributes, 4-byte IPv4, 16-byte
IPv6, 6-byte MAC, packing mode none or simple, uptime whose second count fits
in a u32 **and whose sub-second nanosecond part is zero**), encoding with
`Packet::from_neighbor` and decoding with `Packet::to_neighbor` reproduces
every originally-set attribute exactly and leaves unset attributes absent.
(A duration with a non-zero sub-second part is truncated to whole seconds by
the round trip, as the counterexample shows.) -/
theorem c6_roundtrip_amended (n : Neighbor)
    (hboard : ∀ v, n.board = some v → validUtf8 v = true)
    (hidentity : ∀ v, n.identity = some v → validUtf8 v = true)
    (hiface : ∀ v, n.interface_name = some v → validUtf8 v = true)
    (hipv4 : ∀ v, n.ipv4_address = some v → v.length = 4)
    (hipv6 : ∀ v, n.ipv6_address = some v → v.length = 16)
    (hmac : ∀ v, n.mac_address = some v → v.length = 6)
    (hplatform : ∀ v, n.platform = some v → validUtf8 v = true)
    (hsoftware : ∀ v, n.software_id = some v → validUtf8 v = true)
    (huptime : ∀ d, n.uptime = some d → d.secs < 4294967296 ∧ d.nanos = 0)
    (hversion : ∀ v, n.version = some v → validUtf8 v = true) :
    Packet.to_neighbor (Packet.from_neighbor n) = some n := by
  rw [Packet.to_neighbor, Packet.from_neighbor]
  simp only [to_neighborAux_append]
  rw [aux_emit_board _ _ hboard]
  simp only [Option.bind]
  rw [aux_emit_identity _ _ hidentity]
  simp only [Option.bind]
  rw [aux_emit_interface_name _ _ hiface]
  simp only [Option.bind]
  rw [aux_emit_ipv4 _ _ hipv4]
  simp only [Option.bind]
  rw [aux_emit_ipv6 _ _ hipv6]
  simp only [Option.bind]
  rw [aux_emit_mac _ _ hmac]
  simp only [Option.bind]
  rw [aux_emit_platform _ _ hplatform]
  simp only [Option.bind]
  rw [aux_emit_software_id _ _ hsoftware]
  simp only [Option.bind]
  rw [aux_emit_unpack]
  simp only [Option.bind]
  rw [aux_emit_uptime _ _ huptime]
  simp only [Option.bind]
  rw [aux_emit_version _ _ hversion]
  simp only [Option.or_none]

theorem to_bytes_eq (p : Packet) :
    p.to_bytes = put_u16 p.header ++ put_u16 p.sequence ++ p.fields.flatMap encTV := by
  rw [Packet.to_bytes]
  generalize put_u16 p.header ++ put_u16 p.sequence = init
  induction p.fields generalizing init with
  | nil => simp
  | cons tv rest ih =>
    simp only [List.foldl_cons, List.flatMap_cons, ih]
    have hmin : (if tv.value.length ≥ 65535 then 65535 else tv.value.length) =
        min tv.value.length 65535 := by split <;> omega
    simp only [hmin, encTV, List.append_assoc]

theorem parseTLVs_encTV (fs : List TypeValue)
    (h : ∀ tv ∈ fs, tv.typ < 65536 ∧ tv.value.length ≤ 65535) :
    parseTLVs (fs.flatMap encTV) = fs := by
  induction fs with
  | nil => simp [parseTLVs]
  | cons tv rest ih =>
    obtain ⟨h1, h2⟩ := h tv (by simp)
    have hmin : min tv.value.length 65535 = tv.value.length := by omega
    simp only [List.flatMap_cons, encTV, hmin, put_u16, List.take_length,
      List.cons_append, List.nil_append, List.append_assoc]
    rw [parseTLVs]
    have hlen : tv.value.length % 65536 / 256 * 256 + tv.value.length % 256 =
        tv.value.length := by omega
    have htyp : tv.typ % 65536 / 256 * 256 + tv.typ % 256 = tv.typ := by omega
    rw [if_pos (by rw [hlen]; simp)]
    rw [hlen, htyp, List.take_left, List.drop_left, ih (fun x hx => h x (by simp [hx]))]

theorem parseTLVs_bounds {l : List Nat} (hl : ∀ x ∈ l, x < 256) :
    ∀ tv ∈ parseTLVs l, tv.typ < 65536 ∧ tv.value.length ≤ 65535 ∧
      ∀ y ∈ tv.value, y < 256 := by
  induction l using parseTLVs.induct with
  | case1 t1 t0 l1 l0 rest hle ih =>
    intro tv htv
    rw [parseTLVs, if_pos hle] at htv
    rcases List.mem_cons.mp htv with rfl | htv
    · refine ⟨?_, ?_, ?_⟩
      · have := hl t1 (by simp); have := hl t0 (by simp); simp only; omega
      · have := hl l1 (by simp); have := hl l0 (by simp)
        simp only [List.length_take]; omega
      · intro y hy
        exact hl y (by
          have := List.take_subset (l1 * 256 + l0) rest hy
          simp [this])
    · exact ih (fun x hx => hl x (by
        have := List.drop_subset (l1 * 256 + l0) rest hx
        simp [this])) tv htv
  | case2 t1 t0 l1 l0 rest hle ih =>
    intro tv htv
    rw [parseTLVs, if_neg hle] at htv
    exact ih (fun x hx => hl x (by simp [hx])) tv htv
  | case3 l hshape =>
    intro tv htv
    rcases l with _ | ⟨a, _ | ⟨b, _ | ⟨c, _ | ⟨d, rest⟩⟩⟩⟩
    · simp [parseTLVs] at htv
    · simp [parseTLVs] at htv
    · simp [parseTLVs] at htv
    · simp [parseTLVs] at htv
    · exact (hshape a b c d rest rfl).elim

theorem parseTLVs_append_of_wf {l : List Nat} (h : wfTLVs l = true) (s : List Nat) :
    parseTLVs (l ++ s) = parseTLVs l ++ parseTLVs s := by
  induction l using wfTLVs.induct with
  | case1 => simp [parseTLVs]
  | case2 t1 t0 l1 l0 rest ih =>
    rw [wfTLVs] at h
    obtain ⟨hle, hwf⟩ := Bool.and_eq_true _ _ |>.mp h
    have hle' : l1 * 256 + l0 ≤ rest.length := of_decide_eq_true hle
    simp only [List.cons_append]
    rw [parseTLVs, parseTLVs, if_pos hle',
      if_pos (by simpa using Nat.le_add_right_of_le hle'),
      List.take_append_of_le_length hle', List.drop_append_of_le_length hle',
      ih hwf]
    simp
  | case3 l hshape =>
    rcases l with _ | ⟨a, _ | ⟨b, _ | ⟨c, _ | ⟨d, rest⟩⟩⟩⟩
    · simp [parseTLVs]
    · simp [wfTLVs] at h
    · simp [wfTLVs] at h
    · simp [wfTLVs] at h
    · rename_i hcons
      exact (hcons a b c d rest rfl).elim

theorem flatMap_congr_mem {α β : Type} {l : List α} {f g : α → List β}
    (h : ∀ x ∈ l, f x = g x) : l.flatMap f = l.flatMap g := by
  induction l with
  | nil => simp
  | cons a rest ih =>
    simp only [List.flatMap_cons, h a (by simp),
      ih (fun x hx => h x (by simp [hx]))]

theorem map_typ_emitBytes (c : Nat) (o : Option (List Nat)) :
    (emitBytes c o).map TypeValue.typ = if o.isSome then [c] else [] := by
  cases o <;> simp [emitBytes]

theorem map_typ_emitUnpack (o : Option Unpack) :
    (emitUnpack o).map TypeValue.typ = if o.isSome then [14] else [] := by
  cases o with
  | none => simp [emitUnpack]
  | some u => cases u <;> simp [emitUnpack]

theorem map_typ_emitUptime (o : Option Duration) :
    (emitUptime o).map TypeValue.typ =
      match o with
      | none => []
      | some d => if d.secs < 4294967296 then [10] else [] := by
  cases o with
  | none => simp [emitUptime]
  | some d =>
    simp only [emitUptime]
    split <;> simp

set_option maxRecDepth 4000 in
theorem capture_decodes : Packet.from_bytes capture = .ok capturePacket := by
  simp [capture, Packet.from_bytes, parseTLVs, capturePacket]

set_option maxRecDepth 4000 in
theorem capturePacket_to_neighbor :
    Packet.to_neighbor capturePacket = some captureNeighbor := by
  simp [capturePacket, Packet.to_neighbor, to_neighborAux, decodeField,
    MndpType.tryFrom, fromUtf8Lossy, utf8ChunkLen, isCont, get_u32_le,
    Duration.from_secs, captureNeighbor]

/-! Claim theorems -/

/-- Claim C1 (code bug): the claim says `Packet::to_neighbor` never fails as a
whole and drops each malformed field locally (for example an uptime value with
missing bytes), but the code panics there: on a field of type 10 (uptime)
whose value holds only two bytes, `get_u32_le` aborts the whole conversion. -/
theorem c1_short_uptime_panics :
    Packet.to_neighbor ⟨0, 0, [⟨5, [104, 105]⟩, ⟨10, [1, 2]⟩, ⟨12, [66]⟩]⟩ = none := by
  simp [Packet.to_neighbor, to_neighborAux, decodeField, MndpType.tryFrom]

/-- Claim C2 (code bug): the claim says an IPv4 field whose value length differs
from 4 is dropped and the other fields still decode, but the code panics: on a
field of type 17 (IPv4) with a three-byte value the `try_into().unwrap()`
aborts the whole conversion. -/
theorem c2_short_ipv4_panics :
    Packet.to_neighbor ⟨0, 0, [⟨17, [1, 2, 3]⟩, ⟨12, [66]⟩]⟩ = none := by
  simp [Packet.to_neighbor, to_neighborAux, decodeField, MndpType.tryFrom]

/-- Claim C3 counterexample: a buffer whose final TLV record declares length 100
with only four bytes remaining after its type+length header.  The claim
predicts decoding stops and returns a packet with no fields; instead the loop
keeps running over the partial record's bytes and produces a field from them. -/
theorem c3_counterexample :
    Packet.from_bytes [0, 0, 0, 0, 0, 1, 0, 100, 0, 2, 0, 0] =
        .ok ⟨0, 0, [⟨2, []⟩]⟩ ∧
      Packet.from_bytes [0, 0, 0, 0, 0, 1, 0, 100, 0, 2, 0, 0] ≠ .ok ⟨0, 0, []⟩ := by
  constructor
  · simp [Packet.from_bytes, parseTLVs]
  · simp [Packet.from_bytes, parseTLVs]

/-- Claim C3 (amended): when the final TLV record declares a length exceeding
the bytes remaining after its type+length header **and fewer than four bytes
remain after that header**, decoding silently discards exactly that trailing
partial record, stops, and returns all records parsed before it.  (Without the
extra condition the loop keeps reinterpreting the remaining bytes as further
TLV headers, as the counterexample shows.) -/
theorem c3_amended (b0 b1 b2 b3 t1 t0 l1 l0 : Nat) (pre tail : List Nat)
    (hwf : wfTLVs pre = true)
    (hlen : tail.length < l1 * 256 + l0)
    (htail : tail.length < 4) :
    Packet.from_bytes (b0 :: b1 :: b2 :: b3 :: (pre ++ t1 :: t0 :: l1 :: l0 :: tail)) =
      .ok ⟨b0 * 256 + b1, b2 * 256 + b3, parseTLVs pre⟩ := by
  rw [Packet.from_bytes]
  rw [parseTLVs_append_of_wf hwf]
  rw [parseTLVs, if_neg (by omega)]
  have htail0 : parseTLVs tail = [] := by
    rcases tail with _ | ⟨a, _ | ⟨b, _ | ⟨c, rest⟩⟩⟩
    · simp [parseTLVs]
    · simp [parseTLVs]
    · simp [parseTLVs]
    · rcases rest with _ | ⟨d, rest2⟩
      · simp [parseTLVs]
      · simp only [List.length_cons] at htail; omega
  simp [htail0]

theorem c3_amended_witness :
    Packet.from_bytes [0, 0, 0, 1, 0, 5, 0, 1, 65, 0, 9, 0, 9, 7, 7] =
      .ok ⟨0 * 256 + 0, 0 * 256 + 1, parseTLVs [0, 5, 0, 1, 65]⟩ :=
  c3_amended 0 0 0 1 0 9 0 9 [0, 5, 0, 1, 65] [7, 7]
    (by simp [wfTLVs]) (by decide) (by decide)

/-- Claim C5: decoding fewer than four bytes fails with the truncation error and
yields no packet; decoding four or more bytes succeeds, reading the first two
bytes as the big-endian header and the next two as the big-endian sequence
number. -/
theorem c5_truncation (b : List Nat) :
    (b.length < 4 → Packet.from_bytes b = .error ()) ∧
    (∀ b0 b1 b2 b3 rest, b = b0 :: b1 :: b2 :: b3 :: rest →
      ∃ p, Packet.from_bytes b = .ok p ∧ p.header = b0 * 256 + b1 ∧
        p.sequence = b2 * 256 + b3) := by
  constructor
  · intro h
    rcases b with _ | ⟨a, _ | ⟨c, _ | ⟨d, _ | ⟨e, rest⟩⟩⟩⟩
    · rfl
    · rfl
    · rfl
    · rfl
    · simp only [List.length_cons] at h; omega
  · rintro b0 b1 b2 b3 rest rfl
    exact ⟨_, rfl, rfl, rfl⟩

theorem c5_truncation_witness :
    Packet.from_bytes [9, 9, 9] = .error () ∧
    ∃ p, Packet.from_bytes [1, 2, 3, 4, 5] = .ok p ∧ p.header = 1 * 256 + 2 ∧
      p.sequence = 3 * 256 + 4 :=
  ⟨(c5_truncation [9, 9, 9]).1 (by decide),
   (c5_truncation [1, 2, 3, 4, 5]).2 1 2 3 4 [5] rfl⟩

/-- Claim C7: `Packet::to_bytes` is total and emits, after the header and
sequence number, each field as two type bytes, two length bytes and the value
truncated to the emitted length, where the emitted length is the minimum of
the stored value length and 65535; that length never overflows the 16-bit
length prefix (`put_u16` does not wrap on it). -/
theorem c7_encode_clamped (p : Packet) :
    Packet.to_bytes p =
      put_u16 p.header ++ put_u16 p.sequence ++
        p.fields.flatMap (fun tv =>
          put_u16 tv.typ ++ put_u16 (min tv.value.length 65535) ++
            tv.value.take (min tv.value.length 65535)) ∧
    ∀ tv ∈ p.fields, min tv.value.length 65535 ≤ 65535 ∧
      min tv.value.length 65535 % 65536 = min tv.value.length 65535 := by
  refine ⟨to_bytes_eq p, ?_⟩
  intro tv _
  omega

/-- Claim C9: `Packet::from_neighbor` emits exactly one field per present
attribute, in the canonical order board, identity, interface name, IPv4,
IPv6, MAC, platform, software ID, packing mode, uptime, version (codes 12, 5,
16, 17, 15, 1, 8, 11, 14, 10, 7); absent attributes emit nothing, and an
uptime whose second count does not fit in a u32 is omitted entirely. -/
theorem c9_canonical_order (n : Neighbor) :
    (Packet.from_neighbor n).fields.map TypeValue.typ =
      (if n.board.isSome then [12] else []) ++
      (if n.identity.isSome then [5] else []) ++
      (if n.interface_name.isSome then [16] else []) ++
      (if n.ipv4_address.isSome then [17] else []) ++
      (if n.ipv6_address.isSome then [15] else []) ++
      (if n.mac_address.isSome then [1] else []) ++
      (if n.platform.isSome then [8] else []) ++
      (if n.software_id.isSome then [11] else []) ++
      (if n.unpack.isSome then [14] else []) ++
      (match n.uptime with
       | none => []
       | some d => if d.secs < 4294967296 then [10] else []) ++
      (if n.version.isSome then [7] else []) := by
  simp only [Packet.from_neighbor, List.map_append, map_typ_emitBytes,
    map_typ_emitUnpack, map_typ_emitUptime]

/-- Claim C4: decoding a well-formed buffer, re-encoding the result and decoding
again yields a packet with the same header and sequence number and the same
field multiset (in fact the very same packet). -/
theorem c4_roundtrip (b : List Nat) (hbytes : ∀ x ∈ b, x < 256)
    (_hwf : wellFormed b = true) (p : Packet) (hp : Packet.from_bytes b = .ok p) :
    ∃ p2, Packet.from_bytes (Packet.to_bytes p) = .ok p2 ∧
      p2.header = p.header ∧ p2.sequence = p.sequence ∧
      Multiset.ofList p2.fields = Multiset.ofList p.fields := by
  clear _hwf
  rcases b with _ | ⟨b0, _ | ⟨b1, _ | ⟨b2, _ | ⟨b3, rest⟩⟩⟩⟩
  · simp [Packet.from_bytes] at hp
  · simp [Packet.from_bytes] at hp
  · simp [Packet.from_bytes] at hp
  · simp [Packet.from_bytes] at hp
  · rw [Packet.from_bytes] at hp
    cases hp
    have hb0 : b0 < 256 := hbytes b0 (by simp)
    have hb1 : b1 < 256 := hbytes b1 (by simp)
    have hb2 : b2 < 256 := hbytes b2 (by simp)
    have hb3 : b3 < 256 := hbytes b3 (by simp)
    have hrest : ∀ x ∈ rest, x < 256 := fun x hx => hbytes x (by simp [hx])
    have hbnd := parseTLVs_bounds hrest
    rw [to_bytes_eq]
    simp only [put_u16, List.cons_append, List.nil_append]
    rw [Packet.from_bytes]
    refine ⟨_, rfl, ?_, ?_, ?_⟩
    · simp only
      omega
    · simp only
      omega
    · simp only
      rw [parseTLVs_encTV _ (fun tv htv => ⟨(hbnd tv htv).1, (hbnd tv htv).2.1⟩)]

theorem c4_roundtrip_witness :
    (∀ x ∈ [0, 1, 0, 2, 0, 5, 0, 1, 65], x < 256) ∧
    wellFormed [0, 1, 0, 2, 0, 5, 0, 1, 65] = true ∧
    ∃ p2, Packet.from_bytes (Packet.to_bytes ⟨1, 2, [⟨5, [65]⟩]⟩) = .ok p2 ∧
      p2.header = 1 ∧ p2.sequence = 2 ∧
      Multiset.ofList p2.fields = Multiset.ofList [⟨5, [65]⟩] :=
  ⟨by decide, by simp [wellFormed, wfTLVs],
   c4_roundtrip [0, 1, 0, 2, 0, 5, 0, 1, 65] (by decide)
     (by simp [wellFormed, wfTLVs]) ⟨1, 2, [⟨5, [65]⟩]⟩
     (by simp [Packet.from_bytes, parseTLVs])⟩

/-- Claim C6 counterexample to the claim as stated: a Neighbor whose uptime is
1.5 seconds (second count 1, which fits in a u32) is not reproduced exactly by
the encode–decode round trip — the sub-second part is lost. -/
theorem c6_counterexample :
    Packet.to_neighbor (Packet.from_neighbor { uptime := some ⟨1, 500000000⟩ }) ≠
        some { uptime := some ⟨1, 500000000⟩ } ∧
      Packet.to_neighbor (Packet.from_neighbor { uptime := some ⟨1, 500000000⟩ }) =
        some { uptime := some ⟨1, 0⟩ } := by
  constructor
  · decide
  · decide

theorem c6_roundtrip_witness :
    Packet.to_neighbor (Packet.from_neighbor { board := some [65, 66], ipv4_address := some [10, 0, 0, 1], unpack := some .No, uptime := some ⟨7, 0⟩ }) =
      some { board := some [65, 66], ipv4_address := some [10, 0, 0, 1], unpack := some .No, uptime := some ⟨7, 0⟩ } :=
  c6_roundtrip_amended
    { board := some [65, 66], ipv4_address := some [10, 0, 0, 1], unpack := some .No, uptime := some ⟨7, 0⟩ }
    (by intro v hv; cases hv; simp [validUtf8, utf8ChunkLen])
    (by intro v hv; cases hv)
    (by intro v hv; cases hv)
    (by intro v hv; cases hv; decide)
    (by intro v hv; cases hv)
    (by intro v hv; cases hv)
    (by intro v hv; cases hv)
    (by intro v hv; cases hv)
    (by intro d hd; cases hd; exact ⟨by decide, rfl⟩)
    (by intro v hv; cases hv)

/-- Claim C8 counterexample to the claim as stated: the capture is 137 bytes
long, not 75, and its uptime field holds raw little-endian bytes
`41 75 2e 00` (3044673 seconds), so the decoded neighbor does not carry the
claimed 2677-second uptime. -/
theorem c8_counterexample :
    capture.length ≠ 75 ∧
    (Packet.from_bytes capture).map Packet.to_neighbor ≠
      .ok (some { captureNeighbor with uptime := some ⟨2677, 0⟩ }) := by
  refine ⟨by simp [capture], ?_⟩
  rw [capture_decodes]
  simp only [Except.map]
  rw [capturePacket_to_neighbor]
  simp [captureNeighbor]

/-- Claim C8 (amended): decoding the 137-byte capture `3cc6...9d01` yields a
packet with header `0x3cc6` and sequence 0, and mapping it to a Neighbor
yields exactly these eleven attributes and no others: MAC c4:ad:34:bf:91:11,
identity "eob-router1", version "6.48.1 (stable)", platform "MikroTik",
uptime 3044673 seconds (raw little-endian bytes `41 75 2e 00`), software ID
"2AP7-ZVC5", board "RB760iGS", simple packing (wire byte 1), IPv6
2600:6c50:67f:7700::1, interface name "vlan157", IPv4 172.18.157.1. -/
theorem c8_amended :
    capture.length = 137 ∧
    Packet.from_bytes capture = .ok capturePacket ∧
    capturePacket.header = 15558 ∧ capturePacket.sequence = 0 ∧
    Packet.to_neighbor capturePacket = some captureNeighbor :=
  ⟨by simp [capture], capture_decodes, rfl, rfl, capturePacket_to_neighbor⟩

/-- Claim C10: every field of a packet successfully decoded from a byte buffer
has a value of at most 65535 bytes, so re-encoding it emits every field with
its exact length and its whole value (the length clamp never truncates
anything). -/
theorem c10_no_truncation (b : List Nat) (hbytes : ∀ x ∈ b, x < 256)
    (p : Packet) (hp : Packet.from_bytes b = .ok p) :
    (∀ tv ∈ p.fields, tv.value.length ≤ 65535) ∧
    Packet.to_bytes p =
      put_u16 p.header ++ put_u16 p.sequence ++
        p.fields.flatMap (fun tv =>
          put_u16 tv.typ ++ put_u16 tv.value.length ++ tv.value) := by
  rcases b with _ | ⟨b0, _ | ⟨b1, _ | ⟨b2, _ | ⟨b3, rest⟩⟩⟩⟩
  · simp [Packet.from_bytes] at hp
  · simp [Packet.from_bytes] at hp
  · simp [Packet.from_bytes] at hp
  · simp [Packet.from_bytes] at hp
  · rw [Packet.from_bytes] at hp
    cases hp
    have hrest : ∀ x ∈ rest, x < 256 := fun x hx => hbytes x (by simp [hx])
    have hbnd := parseTLVs_bounds hrest
    refine ⟨fun tv htv => (hbnd tv htv).2.1, ?_⟩
    rw [to_bytes_eq]
    simp only
    rw [flatMap_congr_mem (fun tv htv => ?_)]
    have hle : tv.value.length ≤ 65535 := (hbnd tv htv).2.1
    have hmin : min tv.value.length 65535 = tv.value.length := by omega
    rw [encTV, hmin, List.take_length]

theorem c10_no_truncation_witness :
    (∀ x ∈ [0, 1, 0, 2, 0, 5, 0, 2, 65, 66], x < 256) ∧
    (∀ tv ∈ (Packet.mk 1 2 [⟨5, [65, 66]⟩]).fields, tv.value.length ≤ 65535) ∧
    Packet.to_bytes ⟨1, 2, [⟨5, [65, 66]⟩]⟩ =
      put_u16 1 ++ put_u16 2 ++
        ([⟨5, [65, 66]⟩] : List TypeValue).flatMap (fun tv =>
          put_u16 tv.typ ++ put_u16 tv.value.length ++ tv.value) :=
  ⟨by decide,
   (c10_no_truncation [0, 1, 0, 2, 0, 5, 0, 2, 65, 66] (by decide)
     ⟨1, 2, [⟨5, [65, 66]⟩]⟩ (by simp [Packet.from_bytes, parseTLVs])).1,
   (c10_no_truncation [0, 1, 0, 2, 0, 5, 0, 2, 65, 66] (by decide)
     ⟨1, 2, [⟨5, [65, 66]⟩]⟩ (by simp [Packet.from_bytes, parseTLVs])).2⟩

end Mndp
